import Mathlib

/-!
# Verification of the i18n-tools core logic

A shallow embedding of the core (UI-free) logic of the i18n-tools
repository: the user-facing-text classifier, key generation,
locale-tree synchronization, the pending-marker translate-fill and the
backup-then-rewrite step of the source rewriter.

Python dictionaries are modelled as insertion-ordered association
lists (`List (String × α)`); a JSON locale tree is the nested type
`JVal`.  Python strings are Lean `String`s, operated on through their
`List Char` data so that every definition is executable by the kernel.
File I/O is modelled by an explicit file-system map from path strings
to content strings.  The external translation provider is a parameter
`String → Option String` (`none` models a raised provider exception).
-/

namespace I18n
/-- First-match lookup in an insertion-ordered association list
(Python `dict.get`). -/
def lookupA {α : Type} (k : String) : List (String × α) → Option α
  | [] => none
  | (k', v) :: rest => if k' = k then some v else lookupA k rest

/-- `d[k] = v` on an insertion-ordered association list: replaces the
first binding of `k` in place, or appends a new binding at the end
(Python dict assignment). -/
def setKey {α : Type} : List (String × α) → String → α → List (String × α)
  | [], k, v => [(k, v)]
  | (k', v') :: rest, k, v =>
      if k' = k then (k, v) :: rest else (k', v') :: setKey rest k v

/-- A JSON value as stored in a locale file: a string leaf or a nested
object.  (The locale files written by the tool contain only these two
shapes.) -/
inductive JVal where
  | str : String → JVal
  | obj : List (String × JVal) → JVal

/-- Look a fully-qualified key path up in a locale tree.  `[k]` returns
whatever value sits at the top-level key `k`; a longer path descends
through nested objects and is `none` as soon as a non-object is hit. -/
def lookupPath : List (String × JVal) → List String → Option JVal
  | _, [] => none
  | d, k :: p =>
      match p with
      | [] => lookupA k d
      | _ =>
          match lookupA k d with
          | some (JVal.obj o) => lookupPath o p
          | _ => none

/-- The list of fully-qualified key paths of the string leaves of a
locale tree, in tree order. -/
def flatPaths : List (String × JVal) → List (List String)
  | [] => []
  | (k, JVal.str _) :: rest => [k] :: flatPaths rest
  | (k, JVal.obj o) :: rest => (flatPaths o).map (k :: ·) ++ flatPaths rest

/-- The modern edition's `I18nManager._sync_nested_dict(source, target, lang)`:
rebuilds the target tree key-by-key from the source tree; a leaf takes
the target's existing value when present and otherwise the source value
behind the `'[SRC] '` pending marker.  The Python code calls `.items()`
on `target.get(key, {})`, which raises when the target holds a string
where the source holds an object; that raise is modelled as `none`.
(The unused `lang` parameter of the Python method is dropped.) -/
def sync_nested_dict : List (String × JVal) → List (String × JVal) →
    Option (List (String × JVal))
  | [], _ => some []
  | (k, JVal.str s) :: rest, target =>
      let v := match lookupA k target with
        | some w => w
        | none => JVal.str ("[SRC] " ++ s)
      match sync_nested_dict rest target with
      | some r => some ((k, v) :: r)
      | none => none
  | (k, JVal.obj s') :: rest, target =>
      match lookupA k target with
      | some (JVal.str _) => none
      | some (JVal.obj t') =>
          match sync_nested_dict s' t', sync_nested_dict rest target with
          | some r1, some r2 => some ((k, JVal.obj r1) :: r2)
          | _, _ => none
      | none =>
          match sync_nested_dict s' [], sync_nested_dict rest target with
          | some r1, some r2 => some ((k, JVal.obj r1) :: r2)
          | _, _ => none

/-- Shape compatibility of a target locale tree with a source locale
tree, mirroring the recursion of `sync_nested_dict`: wherever the source
holds a string leaf, the target does not hold a nested object under the
same key.  Locale trees produced by the tool always satisfy this. -/
def leafCompatB : List (String × JVal) → List (String × JVal) → Bool
  | [], _ => true
  | (k, JVal.str _) :: rest, target =>
      (match lookupA k target with
       | some (JVal.obj _) => false
       | _ => true) && leafCompatB rest target
  | (k, JVal.obj s') :: rest, target =>
      (match lookupA k target with
       | some (JVal.obj t') => leafCompatB s' t'
       | _ => true) && leafCompatB rest target

/-- Prefix test on character lists (Python `str.startswith`). -/
def leadsWith : List Char → List Char → Bool
  | [], _ => true
  | _ :: _, [] => false
  | a :: as, b :: bs => a = b && leadsWith as bs

/-- Python `s.startswith(pre)` on strings. -/
def strLeads (pre s : String) : Bool := leadsWith pre.data s.data

/-- The PyQt edition's `_merge_dict_keys(master, source, keep_values)`:
folds the keys of `source` into the accumulated master structure;
string leaves overwrite only when `keep_values` is set (the English
pass) or when the key is new. -/
def merge_dict_keys : List (String × JVal) → List (String × JVal) → Bool →
    List (String × JVal)
  | master, [], _ => master
  | master, (k, JVal.obj v) :: rest, keep =>
      let m1 := match lookupA k master with
        | some (JVal.obj o) => o
        | _ => []
      merge_dict_keys (setKey master k (JVal.obj (merge_dict_keys m1 v keep))) rest keep
  | master, (k, JVal.str sv) :: rest, keep =>
      let master' := if keep || (lookupA k master).isNone
        then setKey master k (JVal.str sv) else master
      merge_dict_keys master' rest keep

/-- The PyQt edition's `_apply_master_structure(master, target, is_english)`:
rebuilds a language tree with exactly the master structure, keeping an
existing target string that does not start with `'[EN]'`, and otherwise
the master value (English) or the `'[EN] '`-marked master value. -/
def apply_master_structure : List (String × JVal) → List (String × JVal) → Bool →
    List (String × JVal)
  | [], _, _ => []
  | (k, JVal.obj v) :: rest, target, isEn =>
      let tv := match lookupA k target with
        | some (JVal.obj o) => o
        | _ => []
      (k, JVal.obj (apply_master_structure v tv isEn)) ::
        apply_master_structure rest target isEn
  | (k, JVal.str sv) :: rest, target, isEn =>
      let v := match lookupA k target with
        | some (JVal.str tvs) =>
            if strLeads "[EN]" tvs then
              (if isEn then JVal.str sv else JVal.str ("[EN] " ++ sv))
            else JVal.str tvs
        | _ => if isEn then JVal.str sv else JVal.str ("[EN] " ++ sv)
      (k, v) :: apply_master_structure rest target isEn

/-! ## Claim C2: writing generated keys into the locale files -/

/-- One value of the `KeyMapping` built by `generate_translation_keys`:
`{text, file, context, section, key_name}`. -/
structure KeyInfo where
  text : String
  file : String
  context : String
  sectionName : String
  keyName : String

/-- Python `full_key.split('.', 1)` unpacked into `(section, key_name)`;
`none` models the `ValueError` raised when there is no dot. -/
def splitDotAux : List Char → List Char → Option (List Char × List Char)
  | _, [] => none
  | acc, c :: rest =>
      if c = '.' then some (acc.reverse, rest) else splitDotAux (c :: acc) rest

def splitDot1 (s : String) : Option (String × String) :=
  match splitDotAux [] s.data with
  | some (a, b) => some (String.mk a, String.mk b)
  | none => none

/-- The body of the per-key loop of the modern edition's
`translate_to_languages` (and of `translate_keys_to_languages` in the
other editions): split the dotted key, create the section object if
missing, then unconditionally store the text (source language) or the
`'[SRC] '`-marked text (any other language) under the key.  `none`
models the raise when the dotted key has no dot or when the existing
section value is not an object. -/
def write_key_step (sourceLang lang : String) (data : List (String × JVal))
    (fullKey : String) (info : KeyInfo) : Option (List (String × JVal)) :=
  match splitDot1 fullKey with
  | none => none
  | some (sec, keyName) =>
      let sectionVal := match lookupA sec data with
        | some v => v
        | none => JVal.obj []
      match sectionVal with
      | JVal.str _ => none
      | JVal.obj secList =>
          let newVal := if lang = sourceLang then info.text else "[SRC] " ++ info.text
          some (setKey data sec (JVal.obj (setKey secList keyName (JVal.str newVal))))

/-- The per-language write pass of `translate_to_languages`: iterate the
key mapping over one language's locale tree. -/
def translate_to_languages_write (sourceLang lang : String) :
    List (String × KeyInfo) → List (String × JVal) → Option (List (String × JVal))
  | [], data => some data
  | (fk, info) :: rest, data =>
      match write_key_step sourceLang lang data fk info with
      | none => none
      | some d' => translate_to_languages_write sourceLang lang rest d'

/-! ## Claim C6: pending-marker round trip and translate-fill -/

/-- Python `value[len(marker):]` — the slice that recovers the original
source text from a marker-carrying value in `_translate_dict`. -/
def stripMarker (marker v : String) : String := String.mk (v.data.drop marker.data.length)

/-- The modern edition's `_translate_dict(data, target_lang, source_lang, marker)`:
walks the tree and, for every string leaf still carrying the pending
marker, strips the marker and calls the translation provider; on
provider failure (`none`, modelling the caught exception) the leaf is
left unchanged.  The provider stands for `GoogleTranslator(...).translate`. -/
def translate_dict (marker : String) (provider : String → Option String) :
    List (String × JVal) → List (String × JVal)
  | [] => []
  | (k, JVal.obj o) :: rest =>
      (k, JVal.obj (translate_dict marker provider o)) :: translate_dict marker provider rest
  | (k, JVal.str v) :: rest =>
      let v' := if strLeads marker v then
          match provider (stripMarker marker v) with
          | some t => t
          | none => v
        else v
      (k, JVal.str v') :: translate_dict marker provider rest

/-! ## Claims C3 and C9: backup-then-rewrite in `replace_in_source_code`

The file system is modelled as a map from path strings to content
strings.  `shutil.copy2(filepath, backup_dir / filepath.name)` may fail
at OS level; the oracle `copyOk` says for which paths it succeeds.  The
textual rewriting applied after a successful backup — `_add_i18n_import`
plus the `_apply_replacement` regex substitutions — is abstracted as a
parameter `transform`, since these claims are about the backup
discipline and hold for every transform. -/

/-- Python `Path(p).name`: the last slash-separated component. -/
def basenameAux : List Char → List Char → List Char
  | acc, [] => acc.reverse
  | acc, c :: rest =>
      if c = '/' then basenameAux [] rest else basenameAux (c :: acc) rest

def basename (p : String) : String := String.mk (basenameAux [] p.data)

/-- One replacement site recorded for a file: `{key, text, context}`. -/
structure ReplItem where
  key : String
  text : String
  context : String

/-- The `files_map` grouping step of `replace_in_source_code`:
`defaultdict(list)` filled in mapping order, so files appear in order
of first occurrence and each file's replacement list in mapping order. -/
def add_to_group (groups : List (String × List ReplItem)) (file : String)
    (r : ReplItem) : List (String × List ReplItem) :=
  match lookupA file groups with
  | some rs => setKey groups file (rs ++ [r])
  | none => groups ++ [(file, [r])]

def group_by_file_aux (groups : List (String × List ReplItem)) :
    List (String × KeyInfo) → List (String × List ReplItem)
  | [] => groups
  | (fk, info) :: rest =>
      group_by_file_aux (add_to_group groups info.file ⟨fk, info.text, info.context⟩) rest

def group_by_file (mapping : List (String × KeyInfo)) : List (String × List ReplItem) :=
  group_by_file_aux [] mapping

/-- Processing of a single file inside the loop of
`replace_in_source_code`: back the file up under
`backup_dir / filepath.name`, then read, transform and write it.
`none` models the exception raised when the file cannot be read or the
backup copy fails; nothing has been written to the file at that point. -/
def replace_one_file (fs : List (String × String)) (backupDir : String)
    (copyOk : String → Bool) (transform : String → List ReplItem → String)
    (fp : String) (repls : List ReplItem) : Option (List (String × String)) :=
  match lookupA fp fs with
  | none => none
  | some content =>
      if copyOk fp then
        let fs1 := setKey fs (backupDir ++ "/" ++ basename fp) content
        some (setKey fs1 fp (transform content repls))
      else none

/-- The file loop of `replace_in_source_code`, invoked on the
`group_by_file` output: there is no per-file exception handler, so the
first failing backup or read aborts the whole run, leaving the file
system in its state at the raise (`Except.error`). -/
def replace_in_source_code (backupDir : String) (copyOk : String → Bool)
    (transform : String → List ReplItem → String) :
    List (String × List ReplItem) → List (String × String) →
    Except (List (String × String)) (List (String × String))
  | [], fs => Except.ok fs
  | (fp, repls) :: rest, fs =>
      match replace_one_file fs backupDir copyOk transform fp repls with
      | none => Except.error fs
      | some fs' => replace_in_source_code backupDir copyOk transform rest fs'

/-! ## Claims C4 and C8: the user-facing-text classifier

A faithful model of the modern edition's `_is_user_facing` together
with its `TECHNICAL_PATTERNS` table.  The regular expressions of the
table are translated pattern by pattern; the `re.IGNORECASE` flag used
in the matching loop makes the character classes case-insensitive, so
e.g. `'^[a-z_]+$'` matches letters of either case.  Character classes
are ASCII (as in the Python regexes); `str.isalpha`, `str.lower`,
`str.strip` and `str.isupper` are modelled on ASCII as well, and the
float thresholds `0.4`/`0.7` are modelled as exact rationals. -/

def isLowerAZ (c : Char) : Bool := 'a' ≤ c && c ≤ 'z'

def isUpperAZ (c : Char) : Bool := 'A' ≤ c && c ≤ 'Z'

def isLetterAZ (c : Char) : Bool := isLowerAZ c || isUpperAZ c

def isDigit09 (c : Char) : Bool := '0' ≤ c && c ≤ '9'

def isHexDig (c : Char) : Bool :=
  isDigit09 c || ('a' ≤ c && c ≤ 'f') || ('A' ≤ c && c ≤ 'F')

def lowChar (c : Char) : Char :=
  if isUpperAZ c then Char.ofNat (c.toNat + 32) else c

/-- Python `str.lower()` (ASCII). -/
def lowerStr (s : String) : String := String.mk (s.data.map lowChar)

def isWS (c : Char) : Bool := c = ' ' || c = '\t' || c = '\n' || c = '\r'

/-- Python `str.strip()`. -/
def pyStrip (s : String) : String :=
  String.mk (((s.data.dropWhile isWS).reverse.dropWhile isWS).reverse)

/-- `needle` occurs as a contiguous run inside `hay` (Python `in`). -/
def containsSeq (needle : List Char) : List Char → Bool
  | [] => needle.isEmpty
  | c :: rest => leadsWith needle (c :: rest) || containsSeq needle rest

def hasSub (hay needle : String) : Bool := containsSeq needle.data hay.data

/-- Suffix test (Python `str.endswith`). -/
def trailsWith (suf s : String) : Bool := leadsWith suf.data.reverse s.data.reverse

/-- The `code_indicators` list of `_is_user_facing`. -/
def codeIndicators : List String :=
  ["===", "!==", "==", "!=",
   "=>", "->", "...", "&&", "||",
   "case ", "default:", "switch", "if ", "else", "return ",
   "const ", "let ", "var ", "function", "async ", "await ",
   ".map", ".filter", ".reduce", ".find", ".forEach",
   "?.", "??",
   "import ", "export ", "from ",
   "typeof ", "instanceof "]

/-- `indicator in text or indicator.lower() in text_lower`. -/
def hasCodeIndicator (t : String) : Bool :=
  codeIndicators.any (fun ind => hasSub t ind || hasSub (lowerStr t) (lowerStr ind))

def beforeChar (c : Char) : List Char → List Char
  | [] => []
  | x :: rest => if x = c then [] else x :: beforeChar c rest

def lastIs (c : Char) (l : List Char) : Bool :=
  match l.getLast? with
  | some x => x = c
  | none => false

/-- The `':' in text and not text.endswith(':')` branch: reject when the
text before the first colon is a code keyword. -/
def colonKeywordReject (t : String) : Bool :=
  if t.data.contains ':' && !(lastIs ':' t.data) then
    ["case", "default", "switch", "type", "interface", "enum"].contains
      (lowerStr (pyStrip (String.mk (beforeChar ':' t.data))))
  else false

/-- `re.match` of `'^[a-z_][a-z0-9_]*$'` (no IGNORECASE here). -/
def idMatch (t : String) : Bool :=
  match t.data with
  | [] => false
  | c :: rest =>
      (isLowerAZ c || c = '_') &&
        rest.all (fun x => isLowerAZ x || isDigit09 x || x = '_')

def commonUiWords : List String :=
  ["ok", "yes", "no", "save", "cancel", "close", "open", "edit",
   "delete", "add", "remove", "search", "filter", "clear", "reset",
   "submit", "confirm", "next", "previous", "back", "forward", "home",
   "settings", "help", "about", "logout", "login", "signup", "loading",
   "more", "less", "show", "hide", "view", "download", "upload", "send",
   "new", "create", "update", "refresh", "reload", "copy", "paste", "cut"]

def identifierReject (t : String) : Bool :=
  idMatch t && !(commonUiWords.contains (lowerStr t))

/-- Case-insensitive full match against a word alternation
(the words are stored lower-cased). -/
def wordCI (ws : List String) (t : String) : Bool := ws.contains (lowerStr t)

def cssUtilityWords : List String :=
  ["text", "bg", "border", "flex", "grid", "gap", "p", "m", "w", "h",
   "rounded", "shadow", "font", "leading", "tracking", "space", "divide",
   "ring", "outline", "cursor", "pointer", "select", "appearance",
   "resize", "justify", "items", "content", "self", "order", "shrink",
   "grow", "basis"]

/-- The CSS utility-class regex of the table (a listed word followed by
a dash at the start, IGNORECASE). -/
def cssUtilityPat (t : String) : Bool :=
  cssUtilityWords.any (fun word => leadsWith (word ++ "-").data (lowerStr t).data)

/-- The hex-color regex: a hash sign followed by 3 to 8 hex digits. -/
def hexColorPat (t : String) : Bool :=
  match t.data with
  | '#' :: rest =>
      decide (3 ≤ rest.length) && decide (rest.length ≤ 8) && rest.all isHexDig
  | _ => false

/-- The absolute-path regex: a slash followed by path characters only. -/
def absPathPat (t : String) : Bool :=
  match t.data with
  | '/' :: rest =>
      rest.all (fun c => isLetterAZ c || isDigit09 c || c = '/' || c = '_' || c = '-')
  | _ => false

/-- The relative-path regex: starts with `./` or contains `../`. -/
def relPathPat (t : String) : Bool :=
  leadsWith "./".data t.data || containsSeq "../".data t.data

/-- The URL regex: starts with `http://` or `https://` (IGNORECASE). -/
def urlPat (t : String) : Bool :=
  leadsWith "http://".data (lowerStr t).data || leadsWith "https://".data (lowerStr t).data

/-- The `www.` regex (IGNORECASE). -/
def wwwPat (t : String) : Bool := leadsWith "www.".data (lowerStr t).data

/-- The already-translated regex: contains a lookup call opener,
`t` then a parenthesis then a quote (IGNORECASE). -/
def tCallPat (t : String) : Bool :=
  containsSeq "t(\"".data (lowerStr t).data || containsSeq "t('".data (lowerStr t).data

def fileExtWords : List String :=
  ["jpg", "jpeg", "png", "gif", "svg", "webp", "ico", "mp4", "mp3", "wav",
   "pdf", "json", "xml", "csv", "tsx", "jsx", "ts", "js", "css", "scss",
   "sass", "less", "html", "md", "txt", "zip", "tar", "gz"]

def cssUnitWords : List String :=
  ["px", "rem", "em", "vh", "vw", "%", "pt", "cm", "mm", "in", "deg", "rad", "s", "ms"]

/-- The number-with-unit regex: digits, an optional decimal part, then
a CSS unit (IGNORECASE). -/
def numUnitPat (t : String) : Bool :=
  let l := (lowerStr t).data
  let ds := l.takeWhile isDigit09
  let r := l.dropWhile isDigit09
  !ds.isEmpty &&
    (cssUnitWords.any (fun u => decide (r = u.data)) ||
      (match r with
       | '.' :: r2 =>
           let ds2 := r2.takeWhile isDigit09
           let r3 := r2.dropWhile isDigit09
           !ds2.isEmpty && cssUnitWords.any (fun u => decide (r3 = u.data))
       | _ => false))

/-- The decimal-literal regex: digits, a dot, digits. -/
def decimalPat (t : String) : Bool :=
  let ds := t.data.takeWhile isDigit09
  match t.data.dropWhile isDigit09 with
  | '.' :: r2 => !ds.isEmpty && !r2.isEmpty && r2.all isDigit09
  | _ => false

/-- The UUID regex: hex segments of lengths 8-4-4-4-12 joined by
dashes (IGNORECASE). -/
def uuidPat (t : String) : Bool :=
  match t.data.splitOn '-' with
  | [a, b, c, d, e] =>
      decide (a.length = 8) && decide (b.length = 4) && decide (c.length = 4) &&
        decide (d.length = 4) && decide (e.length = 12) &&
        (a.all isHexDig && b.all isHexDig && c.all isHexDig &&
          d.all isHexDig && e.all isHexDig)
  | _ => false

/-- The `TECHNICAL_PATTERNS` table, one disjunct per regex, applied
with IGNORECASE search semantics. -/
def technicalAny (t : String) : Bool :=
  -- lowercase_only (ci)
  (!t.data.isEmpty && t.data.all (fun c => isLetterAZ c || c = '_')) ||
  -- UPPERCASE_ONLY (ci; the same class once case-folded)
  (!t.data.isEmpty && t.data.all (fun c => isLetterAZ c || c = '_')) ||
  -- camelCase single word (ci)
  (match t.data with
   | [] => false
   | c :: rest => isLetterAZ c && rest.all (fun x => isLetterAZ x || isDigit09 x)) ||
  -- snake_case (ci)
  (match t.data with
   | [] => false
   | c :: rest =>
      (isLetterAZ c || c = '_') &&
        rest.all (fun x => isLetterAZ x || isDigit09 x || x = '_')) ||
  wordCI ["pending", "loading", "success", "error", "warning", "info",
    "active", "inactive", "disabled", "enabled"] t ||
  wordCI ["in_progress", "completed", "failed", "rejected", "approved",
    "cancelled", "draft", "published"] t ||
  wordCI ["default", "primary", "secondary", "tertiary", "danger", "safe",
    "neutral"] t ||
  wordCI ["true", "false", "null", "undefined", "void", "nan"] t ||
  wordCI ["asc", "desc", "ascending", "descending", "left", "right",
    "center", "top", "bottom", "middle"] t ||
  wordCI ["created", "updated", "deleted", "modified", "read", "write",
    "execute"] t ||
  absPathPat t ||
  relPathPat t ||
  urlPat t ||
  wwwPat t ||
  -- the className= substring (ci)
  hasSub (lowerStr t) "classname=" ||
  cssUtilityPat t ||
  hexColorPat t ||
  -- rgb/rgba color opener (ci)
  (leadsWith "rgb(".data (lowerStr t).data || leadsWith "rgba(".data (lowerStr t).data) ||
  -- file-extension suffix (ci)
  fileExtWords.any (fun e => trailsWith ("." ++ e) (lowerStr t)) ||
  wordCI ["json", "xml", "csv", "html", "text", "image", "video", "audio",
    "application"] t ||
  tCallPat t ||
  -- the i18n-dot substring (ci)
  hasSub (lowerStr t) "i18n." ||
  wordCI ["get", "post", "put", "delete", "patch", "options", "head",
    "connect", "trace"] t ||
  wordCI ["application", "multipart", "form-data", "urlencoded", "boundary"] t ||
  wordCI ["bearer", "basic", "digest", "oauth"] t ||
  wordCI ["auto", "inherit", "initial", "unset", "none", "block", "inline",
    "flex", "grid", "hidden", "visible", "absolute", "relative", "fixed",
    "sticky", "static"] t ||
  numUnitPat t ||
  wordCI ["px", "rem", "em", "vh", "vw", "%", "pt", "cm", "mm"] t ||
  -- pure number
  (!t.data.isEmpty && t.data.all isDigit09) ||
  decimalPat t ||
  -- acronym: two or more letters (ci)
  (decide (2 ≤ t.data.length) && t.data.all isLetterAZ) ||
  -- template-literal opener, a dollar sign then an opening brace
  hasSub t "$\x7b" ||
  -- hash/ID: 8 or more hex digits (ci)
  (decide (8 ≤ t.data.length) && t.data.all isHexDig) ||
  uuidPat t

/-- The technical shapes named by the claim: CSS utility-class string,
hex color, file path, URL, already-wrapped lookup call. -/
def namedTechnical (t : String) : Bool :=
  cssUtilityPat t || hexColorPat t || absPathPat t || relPathPat t ||
    urlPat t || wwwPat t || tCallPat t

/-- Python `sum(c.isalpha() for c in text)` (ASCII model). -/
def alphaCount (d : List Char) : Nat := d.countP (fun c => isLetterAZ c)

/-- Single character acceptance: a letter or one of the allowed UI
glyphs. -/
def singleCharOk (t : String) : Bool :=
  match t.data with
  | [c] => isLetterAZ c || ['?', '!', '×', '✓', '✗', '+', '-'].contains c
  | _ => false

def isBracketChar (c : Char) : Bool :=
  c = Char.ofNat 123 || c = Char.ofNat 125 || c = '[' || c = ']' || c = '(' || c = ')'

/-- The code-like bracket check of the multi-word branch: two bracket
characters with no newline between them (the regex dot does not cross
lines). -/
def twoBracketsState : Bool → List Char → Bool
  | _, [] => false
  | seen, c :: rest =>
      if c = '\n' then twoBracketsState false rest
      else if isBracketChar c then
        (if seen then true else twoBracketsState true rest)
      else twoBracketsState seen rest

def twoBracketsOneLine (t : String) : Bool := twoBracketsState false t.data

def firstUpper (t : String) : Bool :=
  match t.data with
  | c :: _ => isUpperAZ c
  | [] => false

/-- The decision chain of `_is_user_facing` on the already-stripped
text. -/
def isUserFacingCore (t : String) : Bool :=
  if t.data.length < 1 ∨ t.data.length > 500 then false
  else if hasCodeIndicator t then false
  else if t.data.count ':' > 1 then false
  else if colonKeywordReject t then false
  else if identifierReject t then false
  else if technicalAny t then false
  else if t.data.length = 1 then singleCharOk t
  else if t.data.contains ' ' then
    if 5 * alphaCount t.data < 2 * t.data.length then false
    else if twoBracketsOneLine t then false
    else true
  else if firstUpper t then
    if 10 * alphaCount t.data < 7 * t.data.length then false
    else true
  else false

/-- The modern edition's `_is_user_facing(text)`: strip, then run the
rejection chain. -/
def is_user_facing (text0 : String) : Bool := isUserFacingCore (pyStrip text0)

/-- `_is_user_facing` as invoked on an arbitrary Python value: the
method's first operation is `text.strip()`, which raises
`AttributeError` for `None` (and any non-string); `Except.error`
models the raise. -/
def is_user_facing_dyn : Option String → Except String Bool
  | none => Except.error "AttributeError"
  | some s => Except.ok (is_user_facing s)

/-- From the spec's words (for comparison with `is_user_facing`): a
multi-word string composed mostly of letters — it contains a space and
more than half of its characters are alphabetic. -/
def multiwordMostlyAlpha (t : String) : Bool :=
  t.data.contains ' ' && decide (t.data.length < 2 * alphaCount t.data)

/-! ## Claims C5 and C7: key generation

The modern edition's `_deduplicate_strings`, `_determine_section` and
`generate_translation_keys`. -/

/-- A detected string occurrence: `{text, file, line, context}`. -/
structure Candidate where
  text : String
  file : String
  line : Nat
  context : String

/-- Maximal whitespace-separated words of a character list (Python
`str.split()`), collected with an accumulator holding the current word
reversed. -/
def splitWSAux : List Char → List Char → List (List Char)
  | acc, [] => if acc.isEmpty then [] else [acc.reverse]
  | acc, c :: rest =>
      if isWS c then
        if acc.isEmpty then splitWSAux [] rest
        else acc.reverse :: splitWSAux [] rest
      else splitWSAux (c :: acc) rest

def wordsOf (l : List Char) : List (List Char) := splitWSAux [] l

/-- The normalisation of `_deduplicate_strings`:
`' '.join(text.strip().split())`. -/
def normalizeWS (s : String) : String :=
  String.mk (List.intercalate [' '] (wordsOf (pyStrip s).data))

def deduplicate_strings_aux (seen : List String) : List Candidate → List Candidate
  | [] => []
  | c :: rest =>
      if seen.contains (normalizeWS c.text) then deduplicate_strings_aux seen rest
      else c :: deduplicate_strings_aux (normalizeWS c.text :: seen) rest

/-- `_deduplicate_strings`: drop every candidate whose normalized text
was already seen, keeping first occurrences in order. -/
def deduplicate_strings (strings : List Candidate) : List Candidate :=
  deduplicate_strings_aux [] strings

/-- The `sections` table of `_determine_section`, in insertion order. -/
def sectionTable : List (String × String) :=
  [("nav", "nav"), ("footer", "footer"), ("home", "home"), ("about", "about"),
   ("contact", "contact"), ("auth", "auth"), ("login", "auth"), ("form", "form"),
   ("button", "button")]

def determineSectionAux : List (String × String) → String → String
  | [], _ => "common"
  | (k, v) :: rest, pl => if hasSub pl k then v else determineSectionAux rest pl

/-- `_determine_section(filepath)`: first table keyword contained in the
lower-cased path wins, default `common`. -/
def determine_section (filepath : String) : String :=
  determineSectionAux sectionTable (lowerStr filepath)

def isWordChar (c : Char) : Bool := isLetterAZ c || isDigit09 c || c = '_'

mutual

/-- `re.findall` of a word-boundary, one capital, then one or more
lowercase letters: scan left to right, starting a match only when the
previous character is not a word character, consuming the maximal
lowercase run.  `capWordsGo`'s boolean records whether the previous
character was a word character; `capWordsTake` holds the reversed
characters of the candidate match (a match needs at least one lowercase
letter after the capital, and the character ending a run can never
start a new match, since the character before it is a letter). -/
def capWordsGo : Bool → List Char → List String
  | _, [] => []
  | prevW, c :: rest =>
      if isUpperAZ c && !prevW then capWordsTake [c] rest
      else capWordsGo (isWordChar c) rest

def capWordsTake (acc : List Char) : List Char → List String
  | [] => if 2 ≤ acc.length then [String.mk acc.reverse] else []
  | c :: rest =>
      if isLowerAZ c then capWordsTake (c :: acc) rest
      else if 2 ≤ acc.length then
        String.mk acc.reverse :: capWordsGo (isWordChar c) rest
      else capWordsGo (isWordChar c) rest

end

/-- `''.join(word.lower() for word in words[:3]) or 'text'`. -/
def keyBaseOf (text : String) : String :=
  let kb := String.join (((capWordsGo false text.data).take 3).map lowerStr)
  if kb = "" then "text" else kb

/-- The collision loop of `generate_translation_keys`: append an
increasing counter until the dotted key is unused.  The fuel
`used.length + 1` is enough for the loop to find a free name, since the
tried names are pairwise distinct; the Python `while` always
terminates. -/
def freshNameAux (used : List String) (sec keyBase : String) : Nat → Nat → String
  | 0, counter => keyBase ++ toString counter
  | fuel + 1, counter =>
      if used.contains (sec ++ "." ++ (keyBase ++ toString counter)) then
        freshNameAux used sec keyBase fuel (counter + 1)
      else keyBase ++ toString counter

def freshName (used : List String) (sec keyBase : String) : String :=
  if used.contains (sec ++ "." ++ keyBase) then
    freshNameAux used sec keyBase (used.length + 1) 1
  else keyBase

def generate_keys_aux (used : List String) : List Candidate → List (String × KeyInfo)
  | [] => []
  | c :: rest =>
      (determine_section c.file ++ "." ++
          freshName used (determine_section c.file) (keyBaseOf c.text),
        ⟨c.text, c.file, c.context,
          determine_section c.file,
          freshName used (determine_section c.file) (keyBaseOf c.text)⟩) ::
        generate_keys_aux
          ((determine_section c.file ++ "." ++
            freshName used (determine_section c.file) (keyBaseOf c.text)) :: used)
          rest

/-- `generate_translation_keys(strings)`: deduplicate, then assign each
candidate a fresh `section.keyName` and record
`{text, file, context, section, key_name}`, in order. -/
def generate_translation_keys (strings : List Candidate) : List (String × KeyInfo) :=
  generate_keys_aux [] (deduplicate_strings strings)

/-- The fields of a candidate that `generate_translation_keys` reads:
`text`, `file` and `context` (the `line` field is never consulted). -/
def candProj (c : Candidate) : String × String × String := (c.text, c.file, c.context)

/-- The console, qt and tkinter editions' `generate_translation_keys`:
the same key-assignment loop, but with no deduplication pass in front
of it — one entry is generated per candidate. -/
def generate_translation_keys_console (strings : List Candidate) :
    List (String × KeyInfo) :=
  generate_keys_aux [] strings

/-! ## Theorems -/

@[simp] theorem lookupA_nil {α : Type} (k : String) : lookupA k ([] : List (String × α)) = none := rfl

theorem lookupA_cons {α : Type} (k k' : String) (v : α) (rest : List (String × α)) :
    lookupA k ((k', v) :: rest) = if k' = k then some v else lookupA k rest := rfl

@[simp] theorem lookupA_cons_self {α : Type} (k : String) (v : α) (rest : List (String × α)) :
    lookupA k ((k, v) :: rest) = some v := by simp [lookupA_cons]

theorem lookupA_cons_ne {α : Type} {k k' : String} (h : k' ≠ k) (v : α)
    (rest : List (String × α)) : lookupA k ((k', v) :: rest) = lookupA k rest := by
  simp [lookupA_cons, h]

theorem lookupA_setKey_self {α : Type} (d : List (String × α)) (k : String) (v : α) :
    lookupA k (setKey d k v) = some v := by
  induction d with
  | nil => simp [setKey]
  | cons hd rest ih =>
      obtain ⟨k', v'⟩ := hd
      by_cases h : k' = k
      · subst h; simp [setKey]
      · simp [setKey, h, lookupA_cons_ne h, ih]

theorem lookupA_setKey_ne {α : Type} (d : List (String × α)) {k k' : String}
    (h : k' ≠ k) (v : α) : lookupA k' (setKey d k v) = lookupA k' d := by
  induction d with
  | nil => simp [setKey, lookupA_cons_ne (fun e => h e.symm)]
  | cons hd rest ih =>
      obtain ⟨k0, v0⟩ := hd
      by_cases h0 : k0 = k
      · subst h0
        have h2 : k0 ≠ k' := fun e => h e.symm
        simp [setKey, lookupA_cons_ne h2 v0, lookupA_cons_ne h2 v]
      · simp [setKey, h0, lookupA_cons, ih]

@[simp] theorem lookupPath_nil_path (d : List (String × JVal)) : lookupPath d [] = none := rfl

theorem lookupPath_single (d : List (String × JVal)) (k : String) :
    lookupPath d [k] = lookupA k d := rfl

@[simp] theorem lookupPath_empty (p : List String) : lookupPath [] p = none := by
  cases p with
  | nil => rfl
  | cons k p' => cases p' <;> simp [lookupPath]

theorem lookupPath_cons_cons (d : List (String × JVal)) (k k' : String) (p : List String) :
    lookupPath d (k :: k' :: p) =
      match lookupA k d with
      | some (JVal.obj o) => lookupPath o (k' :: p)
      | _ => none := rfl

theorem lookupPath_cons_ne {k k' : String} (h : k ≠ k') (v : JVal)
    (d : List (String × JVal)) (p : List String) :
    lookupPath ((k, v) :: d) (k' :: p) = lookupPath d (k' :: p) := by
  cases p <;> simp [lookupPath, lookupA_cons_ne h]

theorem lookupPath_cons_self_cons (k : String) (v : JVal) (d : List (String × JVal))
    (k2 : String) (p : List String) :
    lookupPath ((k, v) :: d) (k :: k2 :: p) =
      match v with
      | JVal.obj o => lookupPath o (k2 :: p)
      | _ => none := by
  cases v <;> simp [lookupPath]

theorem lookupPath_cons_cons_of_lookup (d : List (String × JVal)) (k : String)
    (o : List (String × JVal)) (h : lookupA k d = some (JVal.obj o))
    (k2 : String) (p : List String) :
    lookupPath d (k :: k2 :: p) = lookupPath o (k2 :: p) := by
  simp [lookupPath, h]

theorem lookupPath_cons_cons_none (d : List (String × JVal)) (k : String)
    (h : lookupA k d = none) (k2 : String) (p : List String) :
    lookupPath d (k :: k2 :: p) = none := by
  simp [lookupPath, h]

/-- Key lookup behaviour of `sync_nested_dict`: at every leaf path of the
source tree, the synchronized tree keeps the target's existing value when
the target has one, and otherwise holds the source value behind the
`'[SRC] '` pending marker. -/
theorem sync_lookup :
    ∀ source target, ∀ result, sync_nested_dict source target = some result →
      ∀ p s, lookupPath source p = some (JVal.str s) →
        (∀ w, lookupPath target p = some w → lookupPath result p = some w) ∧
        (lookupPath target p = none →
          lookupPath result p = some (JVal.str ("[SRC] " ++ s))) := by
  intro source target
  induction source, target using sync_nested_dict.induct with
  | case1 target =>
      intro result h p s hs
      simp at hs
  | case2 k s0 rest target r hrest ih =>
      intro result h p s hs
      simp only [sync_nested_dict, hrest] at h
      obtain rfl : (k, (match lookupA k target with
          | some w => w
          | none => JVal.str ("[SRC] " ++ s0))) :: r = result := Option.some.inj h
      match p with
      | [] => simp at hs
      | [k'] =>
          by_cases hk : k = k'
          · subst hk
            simp only [lookupPath_single, lookupA_cons_self] at hs ⊢
            have hss : s0 = s := by
              have := Option.some.inj hs
              cases this; rfl
            subst hss
            rcases hl : lookupA k target with _ | w <;> simp [hl]
          · simp only [lookupPath_single, lookupA_cons_ne hk] at hs ⊢
            simp only [← lookupPath_single] at hs ⊢
            exact ih r hrest [k'] s hs
      | k' :: k2 :: p' =>
          by_cases hk : k = k'
          · subst hk
            rw [lookupPath_cons_self_cons] at hs
            simp at hs
          · rw [lookupPath_cons_ne hk] at hs
            rw [lookupPath_cons_ne hk]
            exact ih r hrest (k' :: k2 :: p') s hs
  | case3 k s0 rest target hrest ih =>
      intro result h p s hs
      simp only [sync_nested_dict, hrest] at h
      exact absurd h (by simp)
  | case4 k s' rest target a hl =>
      intro result h p s hs
      simp only [sync_nested_dict, hl] at h
      exact absurd h (by simp)
  | case5 k s' rest target t' hl r1 r2 h2 h1 ih1 ih2 =>
      intro result h p s hs
      simp only [sync_nested_dict, hl, h1, h2] at h
      obtain rfl : (k, JVal.obj r1) :: r2 = result := Option.some.inj h
      match p with
      | [] => simp at hs
      | [k'] =>
          by_cases hk : k = k'
          · subst hk
            simp only [lookupPath_single, lookupA_cons_self] at hs
            exact absurd hs (by simp)
          · simp only [lookupPath_single, lookupA_cons_ne hk] at hs ⊢
            simp only [← lookupPath_single] at hs ⊢
            exact ih2 r2 h2 [k'] s hs
      | k' :: k2 :: p' =>
          by_cases hk : k = k'
          · subst hk
            rw [lookupPath_cons_self_cons] at hs
            simp only at hs
            rw [lookupPath_cons_self_cons]
            simp only
            rw [lookupPath_cons_cons_of_lookup target k t' hl]
            exact ih1 r1 h1 (k2 :: p') s hs
          · rw [lookupPath_cons_ne hk] at hs
            rw [lookupPath_cons_ne hk]
            exact ih2 r2 h2 (k' :: k2 :: p') s hs
  | case6 k s' rest target t' hl hf ih1 ih2 =>
      intro result h p s hs
      simp only [sync_nested_dict, hl] at h
      exact absurd h (by simp)
  | case7 k s' rest target hl r1 r2 h2 h1 ih1 ih2 =>
      intro result h p s hs
      simp only [sync_nested_dict, hl, h1, h2] at h
      obtain rfl : (k, JVal.obj r1) :: r2 = result := Option.some.inj h
      match p with
      | [] => simp at hs
      | [k'] =>
          by_cases hk : k = k'
          · subst hk
            simp only [lookupPath_single, lookupA_cons_self] at hs
            exact absurd hs (by simp)
          · simp only [lookupPath_single, lookupA_cons_ne hk] at hs ⊢
            simp only [← lookupPath_single] at hs ⊢
            exact ih2 r2 h2 [k'] s hs
      | k' :: k2 :: p' =>
          by_cases hk : k = k'
          · subst hk
            rw [lookupPath_cons_self_cons] at hs
            simp only at hs
            rw [lookupPath_cons_self_cons]
            simp only
            rw [lookupPath_cons_cons_none target k hl]
            constructor
            · intro w hw; exact absurd hw (by simp)
            · intro _
              exact (ih1 r1 h1 (k2 :: p') s hs).2 (by simp)
          · rw [lookupPath_cons_ne hk] at hs
            rw [lookupPath_cons_ne hk]
            exact ih2 r2 h2 (k' :: k2 :: p') s hs
  | case8 k s' rest target hl hf ih1 ih2 =>
      intro result h p s hs
      simp only [sync_nested_dict, hl] at h
      exact absurd h (by simp)

theorem leafCompatB_nil : ∀ source target, target = [] → leafCompatB source target = true := by
  intro source target
  induction source, target using leafCompatB.induct with
  | case1 t => intro _; simp [leafCompatB]
  | case2 k s0 rest t ih =>
      rintro rfl
      simp only [leafCompatB, lookupA_nil]
      exact ih rfl
  | case3 k s' rest t ih1 ih2 =>
      rintro rfl
      simp only [leafCompatB, lookupA_nil]
      exact ih2 rfl

/-- `sync_nested_dict` rebuilds the target from the source tree alone:
the synchronized tree has exactly the source tree's leaf paths.  In
particular a key present only in the old target tree does not survive. -/
theorem sync_flatPaths :
    ∀ source target, ∀ result, sync_nested_dict source target = some result →
      leafCompatB source target = true → flatPaths result = flatPaths source := by
  intro source target
  induction source, target using sync_nested_dict.induct with
  | case1 target =>
      intro result h _
      simp only [sync_nested_dict] at h
      obtain rfl : ([] : List (String × JVal)) = result := Option.some.inj h
      rfl
  | case2 k s0 rest target r hrest ih =>
      intro result h hc
      simp only [sync_nested_dict, hrest] at h
      obtain rfl : (k, (match lookupA k target with
          | some w => w
          | none => JVal.str ("[SRC] " ++ s0))) :: r = result := Option.some.inj h
      simp only [leafCompatB, Bool.and_eq_true] at hc
      obtain ⟨hc1, hc2⟩ := hc
      rcases hl : lookupA k target with _ | w
      · simp only [hl, flatPaths]
        rw [ih r hrest hc2]
      · rcases w with ws | wo
        · simp only [hl, flatPaths]
          rw [ih r hrest hc2]
        · rw [hl] at hc1
          simp at hc1
  | case3 k s0 rest target hrest ih =>
      intro result h _
      simp only [sync_nested_dict, hrest] at h
      exact absurd h (by simp)
  | case4 k s' rest target a hl =>
      intro result h _
      simp only [sync_nested_dict, hl] at h
      exact absurd h (by simp)
  | case5 k s' rest target t' hl r1 r2 h2 h1 ih1 ih2 =>
      intro result h hc
      simp only [sync_nested_dict, hl, h1, h2] at h
      obtain rfl : (k, JVal.obj r1) :: r2 = result := Option.some.inj h
      simp only [leafCompatB, hl, Bool.and_eq_true] at hc
      obtain ⟨hc1, hc2⟩ := hc
      simp only [flatPaths]
      rw [ih1 r1 h1 hc1, ih2 r2 h2 hc2]
  | case6 k s' rest target t' hl hf ih1 ih2 =>
      intro result h _
      simp only [sync_nested_dict, hl] at h
      exact absurd h (by simp)
  | case7 k s' rest target hl r1 r2 h2 h1 ih1 ih2 =>
      intro result h hc
      simp only [sync_nested_dict, hl, h1, h2] at h
      obtain rfl : (k, JVal.obj r1) :: r2 = result := Option.some.inj h
      simp only [leafCompatB, hl, Bool.and_eq_true] at hc
      obtain ⟨_, hc2⟩ := hc
      simp only [flatPaths]
      rw [ih1 r1 h1 (leafCompatB_nil s' [] rfl), ih2 r2 h2 hc2]
  | case8 k s' rest target hl hf ih1 ih2 =>
      intro result h _
      simp only [sync_nested_dict, hl] at h
      exact absurd h (by simp)

/-- The qt edition's apply step rebuilds a language tree with exactly
the master structure's leaf paths, whatever the master holds.  (Nothing
is claimed here about the merge step that builds the master.) -/
theorem apply_master_flatPaths :
    ∀ master target isEn,
      flatPaths (apply_master_structure master target isEn) = flatPaths master := by
  intro master target isEn
  induction master, target, isEn using apply_master_structure.induct with
  | case1 t e => simp [apply_master_structure, flatPaths]
  | case2 k v rest target isEn tv ih1 ih2 =>
      simp only [apply_master_structure, flatPaths]
      rw [ih1, ih2]
  | case3 k sv rest target isEn ih =>
      rcases hl : lookupA k target with _ | w
      · cases isEn <;> simp [apply_master_structure, hl, flatPaths, ih]
      · rcases w with ws | wo
        · by_cases h1 : strLeads "[EN]" ws = true <;> cases isEn <;>
            simp [apply_master_structure, hl, h1, flatPaths, ih]
        · cases isEn <;> simp [apply_master_structure, hl, flatPaths, ih]

/-! ## Claims C1 and C10: locale-tree synchronization -/

/-- C10: `sync_nested_dict` never alters a value already present in the
target tree — for every fully-qualified key present in both the source
tree and the target tree, the synchronized tree holds exactly the
target's previous value (whatever it is, including values still
carrying the `'[SRC] '` pending marker), and only keys absent from the
target receive new, marker-seeded values. -/
theorem claim_C10_sync_frame :
    ∀ source target result, sync_nested_dict source target = some result →
      ∀ p s, lookupPath source p = some (JVal.str s) →
        (∀ w, lookupPath target p = some w → lookupPath result p = some w) ∧
        (lookupPath target p = none →
          lookupPath result p = some (JVal.str ("[SRC] " ++ s))) :=
  sync_lookup

theorem claim_C10_sync_frame_witness :
    lookupPath [("common", JVal.obj [("hello", JVal.str "Hallo"),
        ("bye", JVal.str "[SRC] Bye")])] ["common", "hello"] = some (JVal.str "Hallo") ∧
    lookupPath [("common", JVal.obj [("hello", JVal.str "Hallo"),
        ("bye", JVal.str "[SRC] Bye")])] ["common", "bye"] = some (JVal.str "[SRC] Bye") := by
  have h := claim_C10_sync_frame
    [("common", JVal.obj [("hello", JVal.str "Hello"), ("bye", JVal.str "Bye")])]
    [("common", JVal.obj [("hello", JVal.str "Hallo")])]
    [("common", JVal.obj [("hello", JVal.str "Hallo"), ("bye", JVal.str "[SRC] Bye")])]
    (by simp only [sync_nested_dict]; rfl)
  constructor
  · exact (h ["common", "hello"] "Hello" rfl).1 (JVal.str "Hallo") rfl
  · exact (h ["common", "bye"] "Bye" rfl).2 rfl

/-- C1 as stated is false on the modern edition: `sync_nested_dict`
rebuilds each non-source tree from the source tree's keys only, so the
key `common.extra`, which existed in the target language file before
the call, is removed — the result does not contain the union of keys. -/
theorem claim_C1_counterexample :
    sync_nested_dict
        [("common", JVal.obj [("hello", JVal.str "Hello")])]
        [("common", JVal.obj [("hello", JVal.str "Hallo"), ("extra", JVal.str "Weg")])]
      = some [("common", JVal.obj [("hello", JVal.str "Hallo")])] ∧
    lookupPath [("common", JVal.obj [("hello", JVal.str "Hallo"), ("extra", JVal.str "Weg")])]
        ["common", "extra"] = some (JVal.str "Weg") ∧
    lookupPath [("common", JVal.obj [("hello", JVal.str "Hallo")])]
        ["common", "extra"] = none := by
  refine ⟨?_, ?_, ?_⟩
  · simp only [sync_nested_dict]; rfl
  · rfl
  · rfl

/-- C1 (amended): after the modern edition's `sync_translation_keys`,
every non-source language tree holds exactly the source-language
tree's set of fully-qualified keys — not the union across all language
files: keys already present in the target keep their values, keys
missing from the target are inserted carrying the `'[SRC] '` pending
marker seeded with the source-language value, and keys present only in
the target are dropped. -/
theorem claim_C1_amended :
    ∀ source target result, sync_nested_dict source target = some result →
      leafCompatB source target = true →
      flatPaths result = flatPaths source ∧
      (∀ p s, lookupPath source p = some (JVal.str s) → lookupPath target p = none →
        lookupPath result p = some (JVal.str ("[SRC] " ++ s))) ∧
      (∀ p s w, lookupPath source p = some (JVal.str s) →
        lookupPath target p = some w → lookupPath result p = some w) := by
  intro source target result h hc
  refine ⟨sync_flatPaths source target result h hc, ?_, ?_⟩
  · intro p s hs ht
    exact (sync_lookup source target result h p s hs).2 ht
  · intro p s w hs hw
    exact (sync_lookup source target result h p s hs).1 w hw

theorem claim_C1_amended_witness :
    flatPaths [("common", JVal.obj [("hello", JVal.str "Hallo"), ("bye", JVal.str "[SRC] Bye")])]
      = flatPaths [("common", JVal.obj [("hello", JVal.str "Hello"), ("bye", JVal.str "Bye")])] ∧
    lookupPath [("common", JVal.obj [("hello", JVal.str "Hallo"), ("bye", JVal.str "[SRC] Bye")])]
        ["common", "bye"] = some (JVal.str "[SRC] Bye") := by
  have h := claim_C1_amended
    [("common", JVal.obj [("hello", JVal.str "Hello"), ("bye", JVal.str "Bye")])]
    [("common", JVal.obj [("hello", JVal.str "Hallo")])]
    [("common", JVal.obj [("hello", JVal.str "Hallo"), ("bye", JVal.str "[SRC] Bye")])]
    (by simp only [sync_nested_dict]; rfl)
    (by simp only [leafCompatB]; rfl)
  exact ⟨h.1, h.2.1 ["common", "bye"] "Bye" rfl rfl⟩

theorem splitDotAux_spec :
    ∀ l acc a b, splitDotAux acc l = some (a, b) → a ++ '.' :: b = acc.reverse ++ l := by
  intro l
  induction l with
  | nil => intro acc a b h; exact absurd h (by simp [splitDotAux])
  | cons c rest ih =>
      intro acc a b h
      by_cases hc : c = '.'
      · subst hc
        simp only [splitDotAux, if_pos rfl] at h
        obtain ⟨rfl, rfl⟩ := Prod.mk.injEq .. ▸ Option.some.inj h
        rfl
      · simp only [splitDotAux, if_neg hc] at h
        have := ih (c :: acc) a b h
        simpa using this

theorem splitDot1_data {f : String} {sec kn : String}
    (h : splitDot1 f = some (sec, kn)) : f.data = sec.data ++ '.' :: kn.data := by
  unfold splitDot1 at h
  rcases hx : splitDotAux [] f.data with _ | ab
  · rw [hx] at h; exact absurd h (by simp)
  · rw [hx] at h
    obtain ⟨a, b⟩ := ab
    have hd := splitDotAux_spec f.data [] a b hx
    simp only [List.reverse_nil, List.nil_append] at hd
    have : (String.mk a, String.mk b) = (sec, kn) := Option.some.inj h
    obtain ⟨h1, h2⟩ := Prod.mk.injEq .. ▸ this
    subst h1; subst h2
    exact hd.symm

theorem splitDot1_inj {f1 f2 sec kn : String}
    (h1 : splitDot1 f1 = some (sec, kn)) (h2 : splitDot1 f2 = some (sec, kn)) :
    f1 = f2 := by
  have d1 := splitDot1_data h1
  have d2 := splitDot1_data h2
  cases f1; cases f2
  simp only at d1 d2
  simp [d1, d2]

theorem lookupPath_setKey_ne {k k' : String} (h : k' ≠ k) (v : JVal)
    (d : List (String × JVal)) (p : List String) :
    lookupPath (setKey d k v) (k' :: p) = lookupPath d (k' :: p) := by
  cases p <;> simp [lookupPath, lookupA_setKey_ne d h]

theorem write_key_step_sets {sl lang : String} {data : List (String × JVal)}
    {fk : String} {info : KeyInfo} {d' : List (String × JVal)}
    (h : write_key_step sl lang data fk info = some d')
    {sec kn : String} (hsp : splitDot1 fk = some (sec, kn)) :
    lookupPath d' [sec, kn] =
      some (JVal.str (if lang = sl then info.text else "[SRC] " ++ info.text)) := by
  unfold write_key_step at h
  rw [hsp] at h
  simp only at h
  rcases hl : lookupA sec data with _ | v
  · rw [hl] at h
    simp only at h
    obtain rfl := Option.some.inj h
    rw [lookupPath_cons_cons_of_lookup _ sec _ (lookupA_setKey_self data sec _)]
    rw [lookupPath_single, lookupA_setKey_self]
  · rw [hl] at h
    rcases v with vs | vo
    · exact absurd h (by simp)
    · simp only at h
      obtain rfl := Option.some.inj h
      rw [lookupPath_cons_cons_of_lookup _ sec _ (lookupA_setKey_self data sec _)]
      rw [lookupPath_single, lookupA_setKey_self]

theorem write_key_step_frame {sl lang : String} {data : List (String × JVal)}
    {fk : String} {info : KeyInfo} {d' : List (String × JVal)}
    (h : write_key_step sl lang data fk info = some d')
    {sec kn : String} (hsp : splitDot1 fk = some (sec, kn)) :
    ∀ sec' kn', (sec', kn') ≠ (sec, kn) →
      lookupPath d' [sec', kn'] = lookupPath data [sec', kn'] := by
  intro sec' kn' hne
  unfold write_key_step at h
  rw [hsp] at h
  simp only at h
  by_cases hsec : sec' = sec
  · subst hsec
    have hkn : kn' ≠ kn := by
      intro e; exact hne (by rw [e])
    rcases hl : lookupA sec' data with _ | v
    · rw [hl] at h
      simp only at h
      obtain rfl := Option.some.inj h
      rw [lookupPath_cons_cons_of_lookup _ sec' _ (lookupA_setKey_self data sec' _)]
      rw [lookupPath_single, lookupA_setKey_ne _ hkn]
      rw [lookupPath_cons_cons_none data sec' hl]
      simp
    · rw [hl] at h
      rcases v with vs | vo
      · exact absurd h (by simp)
      · simp only at h
        obtain rfl := Option.some.inj h
        rw [lookupPath_cons_cons_of_lookup _ sec' _ (lookupA_setKey_self data sec' _)]
        rw [lookupPath_single, lookupA_setKey_ne _ hkn]
        rw [lookupPath_cons_cons_of_lookup data sec' vo hl]
        rw [lookupPath_single]
  · rcases hl : lookupA sec data with _ | v
    · rw [hl] at h
      simp only at h
      obtain rfl := Option.some.inj h
      exact lookupPath_setKey_ne hsec _ data [kn']
    · rw [hl] at h
      rcases v with vs | vo
      · exact absurd h (by simp)
      · simp only at h
        obtain rfl := Option.some.inj h
        exact lookupPath_setKey_ne hsec _ data [kn']

theorem write_list_frame {sl lang : String} :
    ∀ (mapping : List (String × KeyInfo)) (data result : List (String × JVal)),
      translate_to_languages_write sl lang mapping data = some result →
      ∀ sec kn, (∀ fk info, (fk, info) ∈ mapping → splitDot1 fk ≠ some (sec, kn)) →
        lookupPath result [sec, kn] = lookupPath data [sec, kn] := by
  intro mapping
  induction mapping with
  | nil =>
      intro data result h sec kn _
      simp only [translate_to_languages_write] at h
      obtain rfl := Option.some.inj h
      rfl
  | cons e rest ih =>
      obtain ⟨fk, info⟩ := e
      intro data result h sec kn hnot
      simp only [translate_to_languages_write] at h
      rcases hstep : write_key_step sl lang data fk info with _ | d'
      · rw [hstep] at h; exact absurd h (by simp)
      · rw [hstep] at h
        have hfk : ∃ p, splitDot1 fk = some p := by
          unfold write_key_step at hstep
          rcases hx : splitDot1 fk with _ | p
          · rw [hx] at hstep; exact absurd hstep (by simp)
          · exact ⟨p, rfl⟩
        obtain ⟨⟨sec0, kn0⟩, hsp⟩ := hfk
        have hpair : (sec, kn) ≠ (sec0, kn0) := by
          intro e
          exact hnot fk info (by simp) (by rw [hsp, e])
        rw [ih d' result h sec kn (fun fk' info' hm => hnot fk' info' (by simp [hm]))]
        exact write_key_step_frame hstep hsp sec kn hpair

/-- C2 as stated is false: the write loop stores every mapped key
unconditionally, so a key that already holds a human translation
(`common.hello = "Hallo"` in `nl.json`) is overwritten with the
marker-wrapped source text. -/
theorem claim_C2_counterexample :
    translate_to_languages_write "en" "nl"
        [("common.hello", ⟨"Hello", "src/pages/Home.tsx", "jsx_text", "common", "hello"⟩)]
        [("common", JVal.obj [("hello", JVal.str "Hallo")])]
      = some [("common", JVal.obj [("hello", JVal.str "[SRC] Hello")])] ∧
    ("[SRC] Hello" : String) ≠ "Hallo" := by
  exact ⟨rfl, by decide⟩

/-- C2 (amended): the write pass stores every key of the mapping
unconditionally — the literal text in the source-language file and the
`'[SRC] '`-marked text in every other language file, overwriting any
value already stored under a mapped key — and leaves every key not in
the mapping unchanged. -/
theorem claim_C2_amended :
    ∀ (sl lang : String) (mapping : List (String × KeyInfo))
      (data result : List (String × JVal)),
      translate_to_languages_write sl lang mapping data = some result →
      (mapping.map Prod.fst).Nodup →
      ((∀ fk info sec kn, (fk, info) ∈ mapping → splitDot1 fk = some (sec, kn) →
        lookupPath result [sec, kn] =
          some (JVal.str (if lang = sl then info.text else "[SRC] " ++ info.text))) ∧
      (∀ sec kn, (∀ fk info, (fk, info) ∈ mapping → splitDot1 fk ≠ some (sec, kn)) →
        lookupPath result [sec, kn] = lookupPath data [sec, kn])) := by
  intro sl lang mapping
  induction mapping with
  | nil =>
      intro data result h _
      refine ⟨?_, ?_⟩
      · intro fk info sec kn hmem
        exact absurd hmem (by simp)
      · exact fun sec kn hn => write_list_frame [] data result h sec kn hn
  | cons e rest ih =>
      obtain ⟨fk0, info0⟩ := e
      intro data result h hnd
      have horig := h
      simp only [List.map_cons, List.nodup_cons] at hnd
      obtain ⟨hfk0, hndrest⟩ := hnd
      simp only [translate_to_languages_write] at h
      rcases hstep : write_key_step sl lang data fk0 info0 with _ | d'
      · rw [hstep] at h; exact absurd h (by simp)
      · rw [hstep] at h
        refine ⟨?_, fun sec kn hn =>
          write_list_frame ((fk0, info0) :: rest) data result horig sec kn hn⟩
        intro fk info sec kn hmem hsp
        rcases List.mem_cons.mp hmem with heq | hmemr
        · obtain ⟨rfl, rfl⟩ := Prod.mk.injEq .. ▸ heq
          have hset := write_key_step_sets hstep hsp
          have hfr : ∀ fk' info', (fk', info') ∈ rest → splitDot1 fk' ≠ some (sec, kn) := by
            intro fk' info' hm' he'
            have : fk' = fk := splitDot1_inj he' hsp
            subst this
            exact hfk0 (by
              have : fk' ∈ rest.map Prod.fst := List.mem_map.mpr ⟨(fk', info'), hm', rfl⟩
              exact this)
          rw [write_list_frame rest d' result h sec kn hfr]
          exact hset
        · exact (ih d' result h hndrest).1 fk info sec kn hmemr hsp

theorem claim_C2_amended_witness :
    lookupPath [("common", JVal.obj [("hello", JVal.str "[SRC] Hello"),
        ("bye", JVal.str "[SRC] Bye")])] ["common", "bye"] = some (JVal.str "[SRC] Bye") ∧
    lookupPath [("common", JVal.obj [("hello", JVal.str "[SRC] Hello"),
        ("bye", JVal.str "[SRC] Bye")])] ["common", "hello"] = some (JVal.str "[SRC] Hello") := by
  have h := claim_C2_amended "en" "nl"
    [("common.bye", ⟨"Bye", "src/pages/Home.tsx", "jsx_text", "common", "bye"⟩)]
    [("common", JVal.obj [("hello", JVal.str "[SRC] Hello")])]
    [("common", JVal.obj [("hello", JVal.str "[SRC] Hello"), ("bye", JVal.str "[SRC] Bye")])]
    rfl (by simp)
  constructor
  · have := h.1 "common.bye"
      ⟨"Bye", "src/pages/Home.tsx", "jsx_text", "common", "bye"⟩ "common" "bye"
      (by simp) rfl
    simpa using this
  · have := h.2 "common" "hello" (by
      intro fk info hm he
      simp only [List.mem_singleton] at hm
      obtain ⟨rfl, rfl⟩ := Prod.mk.injEq .. ▸ hm
      have hd := splitDot1_data he
      simp at hd)
    rw [this]
    rfl

theorem leadsWith_append : ∀ l x : List Char, leadsWith l (l ++ x) = true := by
  intro l x
  induction l with
  | nil => rfl
  | cons c rest ih => simp [leadsWith, ih]

theorem strLeads_append (m s : String) : strLeads m (m ++ s) = true := by
  unfold strLeads
  rw [String.data_append]
  exact leadsWith_append m.data s.data

theorem stripMarker_append (m s : String) : stripMarker m (m ++ s) = s := by
  unfold stripMarker
  rw [String.data_append, List.drop_left]

theorem translate_dict_fill (marker : String) (provider : String → Option String) :
    ∀ d p s t, lookupPath d p = some (JVal.str (marker ++ s)) →
      provider s = some t →
      lookupPath (translate_dict marker provider d) p = some (JVal.str t) := by
  intro d
  induction d using translate_dict.induct marker provider with
  | case1 =>
      intro p s t hs _
      simp at hs
  | case2 k o rest ih1 ih2 =>
      intro p s t hs hp
      match p with
      | [] => simp at hs
      | [k'] =>
          by_cases hk : k = k'
          · subst hk
            simp only [lookupPath_single, lookupA_cons_self] at hs
            exact absurd hs (by simp)
          · simp only [translate_dict]
            simp only [lookupPath_single, lookupA_cons_ne hk] at hs ⊢
            simp only [← lookupPath_single] at hs ⊢
            exact ih2 [k'] s t hs hp
      | k' :: k2 :: p' =>
          by_cases hk : k = k'
          · subst hk
            rw [lookupPath_cons_self_cons] at hs
            simp only at hs
            simp only [translate_dict]
            rw [lookupPath_cons_self_cons]
            simp only
            exact ih1 (k2 :: p') s t hs hp
          · simp only [translate_dict]
            rw [lookupPath_cons_ne hk] at hs
            rw [lookupPath_cons_ne hk]
            exact ih2 (k' :: k2 :: p') s t hs hp
  | case3 k v rest ih =>
      intro p s t hs hp
      match p with
      | [] => simp at hs
      | [k'] =>
          by_cases hk : k = k'
          · subst hk
            simp only [lookupPath_single, lookupA_cons_self] at hs
            have hv : v = marker ++ s := by
              have := Option.some.inj hs
              cases this; rfl
            subst hv
            simp only [translate_dict, strLeads_append, if_pos, stripMarker_append, hp]
            simp [lookupPath_single]
          · simp only [translate_dict]
            simp only [lookupPath_single, lookupA_cons_ne hk] at hs ⊢
            simp only [← lookupPath_single] at hs ⊢
            exact ih [k'] s t hs hp
      | k' :: k2 :: p' =>
          by_cases hk : k = k'
          · subst hk
            rw [lookupPath_cons_self_cons] at hs
            simp at hs
          · simp only [translate_dict]
            rw [lookupPath_cons_ne hk] at hs
            rw [lookupPath_cons_ne hk]
            exact ih (k' :: k2 :: p') s t hs hp

/-- C6: stripping the pending marker from a value written as the marker
followed by the source text recovers exactly the source text; and after
a successful translate-fill of a marker-carrying leaf, the leaf holds
exactly the translation provider's output for that source text (the
marker prefix is gone). -/
theorem claim_C6_marker_roundtrip :
    (∀ marker s : String, stripMarker marker (marker ++ s) = s) ∧
    (∀ (marker : String) (provider : String → Option String)
       (d : List (String × JVal)) (p : List String) (s t : String),
      lookupPath d p = some (JVal.str (marker ++ s)) →
      provider s = some t →
      lookupPath (translate_dict marker provider d) p = some (JVal.str t)) :=
  ⟨stripMarker_append, fun marker provider d p s t hs hp =>
    translate_dict_fill marker provider d p s t hs hp⟩

theorem claim_C6_marker_roundtrip_witness :
    stripMarker "[SRC] " "[SRC] Hello" = "Hello" ∧
    lookupPath (translate_dict "[SRC] " (fun s => some ("NL " ++ s))
        [("common", JVal.obj [("hello", JVal.str "[SRC] Hello")])])
      ["common", "hello"] = some (JVal.str "NL Hello") := by
  constructor
  · exact claim_C6_marker_roundtrip.1 "[SRC] " "Hello"
  · exact claim_C6_marker_roundtrip.2 "[SRC] " (fun s => some ("NL " ++ s))
      [("common", JVal.obj [("hello", JVal.str "[SRC] Hello")])]
      ["common", "hello"] "Hello" "NL Hello" rfl rfl

/-- C3 as stated is false in its continuation half: when the backup
copy for `proj/a.tsx` fails, the whole replace run raises immediately —
the second file `other/b.tsx` is neither backed up nor rewritten, so
the operation does not continue with the next file. -/
theorem claim_C3_counterexample :
    replace_in_source_code "bak" (fun p => p != "proj/a.tsx") (fun c _ => c ++ "X")
        [("proj/a.tsx", []), ("other/b.tsx", [])]
        [("proj/a.tsx", "A"), ("other/b.tsx", "B")]
      = Except.error [("proj/a.tsx", "A"), ("other/b.tsx", "B")] ∧
    lookupA "bak/b.tsx" [("proj/a.tsx", "A"), ("other/b.tsx", "B")] = none ∧
    lookupA "other/b.tsx" [("proj/a.tsx", "A"), ("other/b.tsx", "B")] = some "B" := by
  exact ⟨rfl, rfl, rfl⟩

/-- C3 (amended): for every file the rewriter processes successfully, a
byte-identical copy of its pre-rewrite content is placed in the run's
backup directory before the rewritten content is stored; and if the
backup copy (or the read) fails for a file, that file is left
unmodified and the whole replace run aborts at that file with the file
system unchanged — it does not continue with the next file. -/
theorem claim_C3_amended :
    (∀ (fs : List (String × String)) (backupDir : String) (copyOk : String → Bool)
       (transform : String → List ReplItem → String) (fp : String)
       (repls : List ReplItem) (fs' : List (String × String)),
      replace_one_file fs backupDir copyOk transform fp repls = some fs' →
      backupDir ++ "/" ++ basename fp ≠ fp →
      ∃ content, lookupA fp fs = some content ∧
        lookupA (backupDir ++ "/" ++ basename fp) fs' = some content ∧
        lookupA fp fs' = some (transform content repls)) ∧
    (∀ (backupDir : String) (copyOk : String → Bool)
       (transform : String → List ReplItem → String) (fp : String)
       (repls : List ReplItem) (rest : List (String × List ReplItem))
       (fs : List (String × String)),
      lookupA fp fs = none ∨ copyOk fp = false →
      replace_in_source_code backupDir copyOk transform ((fp, repls) :: rest) fs =
        Except.error fs) := by
  constructor
  · intro fs backupDir copyOk transform fp repls fs' h hne
    unfold replace_one_file at h
    rcases hl : lookupA fp fs with _ | content
    · rw [hl] at h; exact absurd h (by simp)
    · rw [hl] at h
      rcases hc : copyOk fp with _ | _
      · rw [hc] at h; exact absurd h (by simp)
      · rw [hc] at h
        simp only [if_true] at h
        obtain rfl := Option.some.inj h
        refine ⟨content, rfl, ?_, ?_⟩
        · rw [lookupA_setKey_ne _ hne, lookupA_setKey_self]
        · rw [lookupA_setKey_self]
  · intro backupDir copyOk transform fp repls rest fs hfail
    simp only [replace_in_source_code]
    rcases hfail with hl | hc
    · unfold replace_one_file
      rw [hl]
    · unfold replace_one_file
      rcases hl : lookupA fp fs with _ | content
      · rfl
      · rw [hc]
        simp

theorem claim_C3_amended_witness :
    lookupA "bak/a.tsx" [("proj/a.tsx", "AX"), ("bak/a.tsx", "A")] = some "A" ∧
    lookupA "proj/a.tsx" [("proj/a.tsx", "AX"), ("bak/a.tsx", "A")] = some "AX" ∧
    replace_in_source_code "bak" (fun _ => false) (fun c _ => c ++ "X")
        [("proj/a.tsx", [])] [("proj/a.tsx", "A")]
      = Except.error [("proj/a.tsx", "A")] := by
  have h1 := claim_C3_amended.1 [("proj/a.tsx", "A")] "bak" (fun _ => true)
    (fun c _ => c ++ "X") "proj/a.tsx" [] [("proj/a.tsx", "AX"), ("bak/a.tsx", "A")]
    rfl (by decide)
  obtain ⟨content, hc1, hc2, hc3⟩ := h1
  have hcontent : content = "A" := by
    have := Option.some.inj hc1
    exact this.symm
  subst hcontent
  refine ⟨hc2, hc3, ?_⟩
  exact claim_C3_amended.2 "bak" (fun _ => false) (fun c _ => c ++ "X")
    "proj/a.tsx" [] [] [("proj/a.tsx", "A")] (Or.inr rfl)

/-- C9: the backup path of a rewritten file depends only on the file's
basename, so when two rewritten files share a basename the later file's
pre-rewrite copy overwrites the earlier one's, and when the run ends the
single backup stored under that basename holds the later file's
content. -/
theorem claim_C9_backup_collision :
    ∀ (backupDir : String) (copyOk : String → Bool)
      (transform : String → List ReplItem → String) (f1 f2 : String)
      (r1 r2 : List ReplItem) (c1 c2 : String) (fs : List (String × String)),
      basename f1 = basename f2 → f1 ≠ f2 →
      f2 ≠ backupDir ++ "/" ++ basename f1 →
      copyOk f1 = true → copyOk f2 = true →
      lookupA f1 fs = some c1 → lookupA f2 fs = some c2 →
      ∃ fs', replace_in_source_code backupDir copyOk transform
          [(f1, r1), (f2, r2)] fs = Except.ok fs' ∧
        lookupA (backupDir ++ "/" ++ basename f1) fs' = some c2 := by
  intro backupDir copyOk transform f1 f2 r1 r2 c1 c2 fs hbn hne hnb hc1 hc2 hl1 hl2
  simp only [replace_in_source_code]
  unfold replace_one_file
  rw [hl1, hc1]
  simp only [if_true]
  have hl2' : lookupA f2
      (setKey (setKey fs (backupDir ++ "/" ++ basename f1) c1) f1 (transform c1 r1))
      = some c2 := by
    rw [lookupA_setKey_ne _ (fun e => hne e.symm), lookupA_setKey_ne _ hnb, hl2]
  rw [hl2', hc2]
  simp only [if_true]
  refine ⟨_, rfl, ?_⟩
  rw [hbn]
  rw [lookupA_setKey_ne _ (fun e => hnb (hbn ▸ e.symm)), lookupA_setKey_self]

theorem claim_C9_backup_collision_witness :
    ∃ fs', replace_in_source_code "bak" (fun _ => true) (fun c _ => c)
        [("pages/home/Hero.tsx", []), ("pages/auth/Hero.tsx", [])]
        [("pages/home/Hero.tsx", "H1"), ("pages/auth/Hero.tsx", "H2")]
      = Except.ok fs' ∧
      lookupA ("bak" ++ "/" ++ basename "pages/home/Hero.tsx") fs' = some "H2" :=
  claim_C9_backup_collision "bak" (fun _ => true) (fun c _ => c)
    "pages/home/Hero.tsx" "pages/auth/Hero.tsx" [] [] "H1" "H2"
    [("pages/home/Hero.tsx", "H1"), ("pages/auth/Hero.tsx", "H2")]
    rfl (by decide) (by decide) rfl rfl rfl rfl

theorem namedTechnical_imp (t : String) :
    namedTechnical t = true → technicalAny t = true := by
  intro h
  simp only [namedTechnical, Bool.or_eq_true] at h
  simp only [technicalAny, Bool.or_eq_true]
  tauto

/-- C4's second half is false as stated: `"If you continue"` is a
multi-word natural-language string composed mostly of letters, yet
`_is_user_facing` classifies it false, because the code-indicator check
rejects any text whose lower-cased form contains the substring
`"if "`. -/
theorem claim_C4_counterexample :
    multiwordMostlyAlpha "If you continue" = true ∧
    is_user_facing "If you continue" = false := ⟨rfl, rfl⟩

/-- C4 (amended): every input matching one of the named technical
patterns (CSS utility class, hex color, file path, URL, wrapped lookup
call) is classified false; and a multi-word input is classified true
once it passes the length bounds, the code-indicator and colon checks,
the identifier check, the whole technical-pattern table, the 40%
alphabetic-density threshold and the bracket check — but not every
natural-language sentence passes those checks (see the
counterexample). -/
theorem claim_C4_classifier :
    (∀ s : String, namedTechnical (pyStrip s) = true → is_user_facing s = false) ∧
    (∀ s : String,
      1 ≤ (pyStrip s).data.length → (pyStrip s).data.length ≤ 500 →
      (pyStrip s).data.length ≠ 1 →
      hasCodeIndicator (pyStrip s) = false →
      (pyStrip s).data.count ':' ≤ 1 →
      colonKeywordReject (pyStrip s) = false →
      identifierReject (pyStrip s) = false →
      technicalAny (pyStrip s) = false →
      (pyStrip s).data.contains ' ' = true →
      2 * (pyStrip s).data.length ≤ 5 * alphaCount (pyStrip s).data →
      twoBracketsOneLine (pyStrip s) = false →
      is_user_facing s = true) := by
  constructor
  · intro s h
    have ht : technicalAny (pyStrip s) = true := namedTechnical_imp _ h
    simp [is_user_facing, isUserFacingCore, ht]
  · intro s h1 h2 hne hci hcol hckr hid htp hsp hal hbr
    have hlen : ¬((pyStrip s).data.length < 1 ∨ (pyStrip s).data.length > 500) := by
      omega
    have hcol' : ¬((pyStrip s).data.count ':' > 1) := by omega
    have hal' : ¬(5 * alphaCount (pyStrip s).data < 2 * (pyStrip s).data.length) := by
      omega
    unfold is_user_facing isUserFacingCore
    rw [if_neg hlen, if_neg (by simp [hci]), if_neg hcol', if_neg (by simp [hckr]),
      if_neg (by simp [hid]), if_neg (by simp [htp]), if_neg hne, if_pos hsp,
      if_neg hal', if_neg (by simp [hbr])]

theorem claim_C4_classifier_witness :
    is_user_facing "#ff0000" = false ∧ is_user_facing "Welcome Back" = true := by
  constructor
  · exact claim_C4_classifier.1 "#ff0000" rfl
  · exact claim_C4_classifier.2 "Welcome Back" (by decide) (by decide) (by decide)
      rfl (by decide) rfl rfl rfl rfl (by decide) rfl

/-- C8 as stated is false: called on `None`, `_is_user_facing` raises
`AttributeError` at `text.strip()` instead of returning `false`. -/
theorem claim_C8_counterexample :
    is_user_facing_dyn none = Except.error "AttributeError" ∧
    ∀ b : Bool, is_user_facing_dyn none ≠ Except.ok b :=
  ⟨rfl, fun _ h => Except.noConfusion h⟩

/-- C8 (amended): on every string input `_is_user_facing` is pure and
total — it returns a boolean and never raises; it is only for `None`
and other non-string inputs that it raises instead of rejecting
defensively. -/
theorem claim_C8_total_on_strings :
    ∀ s : String, ∃ b : Bool, is_user_facing_dyn (some s) = Except.ok b :=
  fun s => ⟨is_user_facing s, rfl⟩

theorem dedup_proj : ∀ (l1 l2 : List Candidate) (seen : List String),
    l1.map candProj = l2.map candProj →
    (deduplicate_strings_aux seen l1).map candProj =
      (deduplicate_strings_aux seen l2).map candProj := by
  intro l1
  induction l1 with
  | nil =>
      intro l2 seen h
      cases l2 with
      | nil => rfl
      | cons c2 r2 => simp at h
  | cons c1 r1 ih =>
      intro l2 seen h
      cases l2 with
      | nil => simp at h
      | cons c2 r2 =>
          simp only [List.map_cons, List.cons.injEq] at h
          obtain ⟨hc, hr⟩ := h
          have htext : c1.text = c2.text := congrArg Prod.fst hc
          simp only [deduplicate_strings_aux, htext]
          by_cases hm : seen.contains (normalizeWS c2.text) = true
          · simp only [hm, if_true]
            exact ih r2 seen hr
          · simp only [Bool.not_eq_true] at hm
            simp only [hm, Bool.false_eq_true, if_false, List.map_cons, List.cons.injEq]
            exact ⟨hc, ih r2 _ hr⟩

theorem genAux_proj : ∀ (l1 l2 : List Candidate) (used : List String),
    l1.map candProj = l2.map candProj →
    generate_keys_aux used l1 = generate_keys_aux used l2 := by
  intro l1
  induction l1 with
  | nil =>
      intro l2 used h
      cases l2 with
      | nil => rfl
      | cons c2 r2 => simp at h
  | cons c1 r1 ih =>
      intro l2 used h
      cases l2 with
      | nil => simp at h
      | cons c2 r2 =>
          simp only [List.map_cons, List.cons.injEq] at h
          obtain ⟨hc, hr⟩ := h
          have htext : c1.text = c2.text := congrArg Prod.fst hc
          have hfile : c1.file = c2.file := congrArg (fun p => p.2.1) hc
          have hctx : c1.context = c2.context := congrArg (fun p => p.2.2) hc
          simp only [generate_keys_aux, htext, hfile, hctx]
          rw [ih r2 _ hr]

/-- C5: `generate_translation_keys` is deterministic — its output is a
function of the ordered candidate list alone and reads only the
`text`, `file` and `context` fields, so two runs on candidate lists
that agree on those fields (in particular two runs on the same list)
produce identical key mappings. -/
theorem claim_C5_key_determinism :
    ∀ l1 l2 : List Candidate, l1.map candProj = l2.map candProj →
      generate_translation_keys l1 = generate_translation_keys l2 := by
  intro l1 l2 h
  unfold generate_translation_keys deduplicate_strings
  exact genAux_proj _ _ [] (dedup_proj l1 l2 [] h)

theorem claim_C5_key_determinism_witness :
    generate_translation_keys
        [⟨"Welcome Back", "src/pages/home/Hero.tsx", 5, "jsx_text"⟩]
      = generate_translation_keys
        [⟨"Welcome Back", "src/pages/home/Hero.tsx", 99, "jsx_text"⟩] :=
  claim_C5_key_determinism _ _ rfl

theorem genAux_texts : ∀ (l : List Candidate) (used : List String),
    (generate_keys_aux used l).map (fun e => e.2.text) = l.map (fun c => c.text) := by
  intro l
  induction l with
  | nil => intro used; rfl
  | cons c rest ih =>
      intro used
      simp only [generate_keys_aux, List.map_cons, ih]

theorem dedup_countP_zero : ∀ (l : List Candidate) (seen : List String) (n : String),
    seen.contains n = true →
    (deduplicate_strings_aux seen l).countP (fun c => decide (normalizeWS c.text = n))
      = 0 := by
  intro l
  induction l with
  | nil => intro seen n _; rfl
  | cons c rest ih =>
      intro seen n hn
      simp only [deduplicate_strings_aux]
      by_cases hm : seen.contains (normalizeWS c.text) = true
      · simp only [hm, if_true]
        exact ih seen n hn
      · simp only [Bool.not_eq_true] at hm
        simp only [hm, Bool.false_eq_true, if_false, List.countP_cons]
        have hmn : normalizeWS c.text ≠ n := by
          intro e
          rw [e, hn] at hm
          exact absurd hm (by simp)
        have hc2 : (normalizeWS c.text :: seen).contains n = true := by
          simp only [List.contains_cons, Bool.or_eq_true]
          exact Or.inr hn
        rw [ih _ n hc2]
        simp [hmn]

theorem dedup_countP_one : ∀ (l : List Candidate) (seen : List String) (n : String),
    seen.contains n = false →
    (∃ c ∈ l, normalizeWS c.text = n) →
    (deduplicate_strings_aux seen l).countP (fun c => decide (normalizeWS c.text = n))
      = 1 := by
  intro l
  induction l with
  | nil =>
      intro seen n _ hex
      exact absurd hex (by simp)
  | cons c rest ih =>
      intro seen n hn hex
      simp only [deduplicate_strings_aux]
      by_cases hm : seen.contains (normalizeWS c.text) = true
      · have hmn : normalizeWS c.text ≠ n := by
          intro e
          rw [e, hn] at hm
          exact absurd hm (by simp)
        simp only [hm, if_true]
        refine ih seen n hn ?_
        rcases hex with ⟨c0, hc0, hc0n⟩
        rcases List.mem_cons.mp hc0 with rfl | hmem
        · exact absurd hc0n hmn
        · exact ⟨c0, hmem, hc0n⟩
      · simp only [Bool.not_eq_true] at hm
        simp only [hm, Bool.false_eq_true, if_false, List.countP_cons]
        by_cases hmn : normalizeWS c.text = n
        · rw [dedup_countP_zero rest (normalizeWS c.text :: seen) n (by
            simp only [List.contains_cons, Bool.or_eq_true]
            exact Or.inl (by simp [hmn]))]
          simp [hmn]
        · have hn' : (normalizeWS c.text :: seen).contains n = false := by
            simp only [List.contains_cons, Bool.or_eq_false_iff]
            refine ⟨?_, hn⟩
            simp only [beq_eq_false_iff_ne, ne_eq]
            exact fun e => hmn e.symm
          have hexr : ∃ c0 ∈ rest, normalizeWS c0.text = n := by
            rcases hex with ⟨c0, hc0, hc0n⟩
            rcases List.mem_cons.mp hc0 with rfl | hmem
            · exact absurd hc0n hmn
            · exact ⟨c0, hmem, hc0n⟩
          rw [ih _ n hn' hexr]
          simp [hmn]

theorem genAux_countP :
    ∀ (l : List Candidate) (used : List String) (n : String),
      List.countP (fun e : String × KeyInfo => decide (normalizeWS e.2.text = n))
        (generate_keys_aux used l)
      = List.countP (fun c : Candidate => decide (normalizeWS c.text = n)) l := by
  intro l used n
  have hm := List.countP_map (fun t : String => decide (normalizeWS t = n))
    (fun e : String × KeyInfo => e.2.text) (generate_keys_aux used l)
  rw [genAux_texts] at hm
  rw [List.countP_map] at hm
  exact hm.symm

/-- C7 as stated is false in the console edition (one of the claim's
sources): its `generate_translation_keys` has no deduplication pass, so
the same literal text detected in two different files yields two
translation entries (the second with a numeric suffix). -/
theorem claim_C7_counterexample :
    generate_translation_keys_console
        [⟨"Welcome Back", "src/pages/home/Hero.tsx", 3, "jsx_text"⟩,
         ⟨"Welcome Back", "src/pages/home/Banner.tsx", 9, "jsx_text"⟩]
      = [("home.welcomeback",
            ⟨"Welcome Back", "src/pages/home/Hero.tsx", "jsx_text", "home", "welcomeback"⟩),
         ("home.welcomeback1",
            ⟨"Welcome Back", "src/pages/home/Banner.tsx", "jsx_text", "home",
              "welcomeback1"⟩)] ∧
    ((generate_translation_keys_console
        [⟨"Welcome Back", "src/pages/home/Hero.tsx", 3, "jsx_text"⟩,
         ⟨"Welcome Back", "src/pages/home/Banner.tsx", 9, "jsx_text"⟩]).filter
      (fun e => decide (normalizeWS e.2.text = "Welcome Back"))).length = 2 :=
  ⟨rfl, rfl⟩

/-- C7 (amended): in the modern edition, whose
`generate_translation_keys` deduplicates by normalized text first, any
collection of candidates sharing one normalized text yields exactly one
translation entry; in the console/qt/tkinter editions the generator
emits exactly one entry per candidate, so the same literal from two
files yields two entries. -/
theorem claim_C7_dedup_single_entry :
    (∀ (strings : List Candidate) (n : String),
      (∃ c ∈ strings, normalizeWS c.text = n) →
      ((generate_translation_keys strings).filter
          (fun e => decide (normalizeWS e.2.text = n))).length = 1) ∧
    (∀ (strings : List Candidate) (n : String),
      ((generate_translation_keys_console strings).filter
          (fun e => decide (normalizeWS e.2.text = n))).length
        = strings.countP (fun c => decide (normalizeWS c.text = n))) := by
  constructor
  · intro strings n hex
    rw [← List.countP_eq_length_filter]
    unfold generate_translation_keys deduplicate_strings
    rw [genAux_countP]
    exact dedup_countP_one strings [] n rfl hex
  · intro strings n
    rw [← List.countP_eq_length_filter]
    unfold generate_translation_keys_console
    exact genAux_countP strings [] n

theorem claim_C7_dedup_single_entry_witness :
    ((generate_translation_keys
        [⟨"Welcome  Back", "src/pages/home/Hero.tsx", 1, "jsx_text"⟩,
         ⟨"Welcome Back", "src/pages/auth/Login.tsx", 2, "jsx_text"⟩]).filter
      (fun e => decide (normalizeWS e.2.text = "Welcome Back"))).length = 1 :=
  by
  refine claim_C7_dedup_single_entry.1 _ "Welcome Back"
    ⟨⟨"Welcome  Back", "src/pages/home/Hero.tsx", 1, "jsx_text"⟩, ?_, ?_⟩
  · exact List.mem_cons_self _ _
  · rfl

end I18n
